import Mathlib

/-!
Shallow embedding of the diff-report aggregation logic of
scripts/vr_pack_for_claude.py (function collect_diffs, lines 84-123) and of the
surrounding control flow of main (lines 210-255).

Python values read from JSON reports are modelled by the inductive Json
(numbers restricted to integers; no claim computes with numbers, they are
opaque passthrough data).  Python operations that can raise are modelled in
the Except monad: dict method access on a non-dict raises AttributeError,
iterating a non-iterable raises TypeError, and using an unhashable value as a
dict key raises TypeError.  A raised exception inside collect_diffs is only
caught around the open/json.load of one report file (lines 91-96); everywhere
else it aborts the run, which Except's error propagation mirrors.
-/

/-- Model of a JSON value as returned by json.load. -/
inductive Json where
  | null
  | bool (b : Bool)
  | num (n : Int)
  | str (s : String)
  | arr (elems : List Json)
  | obj (fields : List (String × Json))

/-- Python truthiness of a JSON value (used by the `or` defaults on
lines 98 and 102-105). -/
def Json.truthy : Json → Bool
  | .null => false
  | .bool b => b
  | .num n => n != 0
  | .str s => s != ""
  | .arr xs => !xs.isEmpty
  | .obj kvs => !kvs.isEmpty

/-- Python equality of a JSON value with a string literal
(line 99: test.get("status") == "fail"). -/
def Json.isStr (j : Json) (s : String) : Bool :=
  match j with
  | .str t => t == s
  | _ => false

/-- dict.get with default None.  JSON objects parsed by json.load are Python
dicts, so keys are unique and the first association is the only one. -/
def dictGet (kvs : List (String × Json)) (k : String) : Json :=
  (kvs.lookup k).getD .null

/-- dict.get with an explicit default. -/
def dictGetD (kvs : List (String × Json)) (k : String) (d : Json) : Json :=
  (kvs.lookup k).getD d

/-- Hashable JSON scalars: the values Python accepts as dict keys.
Keys are compared structurally; Python's cross-type numeric key equality
(True == 1) is not modelled, no claim involves non-string labels. -/
inductive Scalar where
  | null
  | bool (b : Bool)
  | num (n : Int)
  | str (s : String)
deriving DecidableEq

/-- Using a JSON value as a dict key (line 112, by_page.setdefault(p, ...)):
lists and dicts are unhashable and raise TypeError. -/
def Json.asKey : Json → Except String Scalar
  | .null => .ok .null
  | .bool b => .ok (.bool b)
  | .num n => .ok (.num n)
  | .str s => .ok (.str s)
  | .arr _ => .error "TypeError: unhashable type"
  | .obj _ => .error "TypeError: unhashable type"

/-- Python iteration over a JSON value (line 98, for test in ...): arrays give
their elements, strings their one-character substrings, dicts their keys;
everything else raises TypeError. -/
def Json.iterate : Json → Except String (List Json)
  | .arr xs => .ok xs
  | .str s => .ok (s.data.map fun c => Json.str c.toString)
  | .obj kvs => .ok (kvs.map fun kv => Json.str kv.1)
  | _ => .error "TypeError: not iterable"

/-- One failed item as appended on lines 101-107. -/
structure FailedItem where
  label : Json
  url : Json
  fileName : Json
  mismatch : Json
  selectors : Json

/-- One page summary, the value stored in by_page (line 112). -/
structure PageSummary where
  page : Scalar
  count : Nat
  samples : List Json

/-- The aggregate built on lines 117-120. -/
structure Summary where
  pages : List PageSummary
  totalFailed : Nat

/-- Lines 99-107: one test entry of a report.  Returns none for a non-failing
entry, some item for a failing one, and an error where Python would raise
(test not a dict, pair present but not a dict, diff truthy but not a dict). -/
def processTest (t : Json) : Except String (Option FailedItem) :=
  match t with
  | .obj tkvs =>
    if (dictGet tkvs "status").isStr "fail" then
      match dictGetD tkvs "pair" (.obj []) with
      | .obj pkvs =>
        let label := dictGet pkvs "label"
        let url := dictGet pkvs "url"
        let diffRaw := dictGet pkvs "diff"
        match if diffRaw.truthy then diffRaw else .obj [] with
        | .obj dkvs =>
          .ok (some
            { label := if label.truthy then label else .str "unknown"
              url := if url.truthy then url else .str ""
              fileName := dictGet pkvs "fileName"
              mismatch := dictGet dkvs "misMatchPercentage"
              selectors := dictGet pkvs "selectors" })
        | _ => .error "AttributeError: diff value has no attribute get"
      | _ => .error "AttributeError: pair value has no attribute get"
    else .ok none
  | _ => .error "AttributeError: test entry has no attribute get"

/-- Line 98: data.get("tests", []) or [], then the iteration over it. -/
def fileTests (data : Json) : Except String (List Json) :=
  match data with
  | .obj dkvs =>
    let raw := dictGetD dkvs "tests" (.arr [])
    Json.iterate (if raw.truthy then raw else .arr [])
  | _ => .error "AttributeError: report value has no attribute get"

/-- Lines 98-107 for the whole test list of one report, in order. -/
def collectTestItems : List Json → Except String (List FailedItem)
  | [] => .ok []
  | t :: ts =>
    match processTest t with
    | .error e => .error e
    | .ok o =>
      match collectTestItems ts with
      | .error e => .error e
      | .ok rest => .ok (match o with | some it => it :: rest | none => rest)

/-- The failed items contributed by one parsed report file. -/
def collectFileItems (data : Json) : Except String (List FailedItem) :=
  match fileTests data with
  | .error e => .error e
  | .ok ts => collectTestItems ts

/-- One report file on disk: its base name and the outcome of
open/json.load, none meaning that call raised (malformed JSON or I/O error). -/
structure DirFile where
  name : String
  content : Option Json

/-- Python string comparison: lexicographic on code points, a prefix coming
before its extensions. -/
def charListLe : List Char → List Char → Bool
  | [], _ => true
  | _ :: _, [] => false
  | a :: as, b :: bs =>
    if a.toNat < b.toNat then true
    else if b.toNat < a.toNat then false
    else charListLe as bs

/-- Python ordering of two strings (Char.toNat is the code point). -/
def strLe (a b : String) : Bool := charListLe a.data b.data

theorem charListLe_total : ∀ x y, charListLe x y = true ∨ charListLe y x = true := by
  intro x
  induction x with
  | nil => intro y; left; rfl
  | cons a as ih =>
    intro y
    cases y with
    | nil => right; rfl
    | cons b bs =>
      by_cases hab : a.toNat < b.toNat
      · left; simp [charListLe, hab]
      · by_cases hba : b.toNat < a.toNat
        · right; simp [charListLe, hba]
        · rcases ih bs with h | h
          · left; simp [charListLe, hab, hba, h]
          · right; simp [charListLe, hab, hba, h]

theorem charListLe_trans :
    ∀ x y z, charListLe x y = true → charListLe y z = true →
      charListLe x z = true := by
  intro x
  induction x with
  | nil => intro y z _ _; rfl
  | cons a as ih =>
    intro y z h1 h2
    cases y with
    | nil => cases h1
    | cons b bs =>
      cases z with
      | nil => cases h2
      | cons c cs =>
        simp only [charListLe] at h1 h2 ⊢
        by_cases hab : a.toNat < b.toNat <;>
          by_cases hba : b.toNat < a.toNat <;>
            by_cases hbc : b.toNat < c.toNat <;>
              by_cases hcb : c.toNat < b.toNat <;>
                simp_all <;>
                  first
                  | omega
                  | (constructor <;> omega)
                  | (refine ih bs cs ?_ ?_ <;> omega)
                  | (have hac : ¬ a.toNat < c.toNat := by omega
                     have hca : ¬ c.toNat < a.toNat := by omega
                     simp [hac, hca]
                     first
                     | exact ih bs cs h1 h2
                     | exact ⟨by omega, ih bs cs h1 h2⟩)

/-- Sorted-file-name order of line 85 (sorted over glob; all paths share the
directory prefix, so the order is the one Python's sorted uses on the
names). -/
def fileLe (a b : DirFile) : Prop := strLe a.name b.name = true

instance : DecidableRel fileLe := fun a b =>
  inferInstanceAs (Decidable (strLe a.name b.name = true))

instance : IsTotal DirFile fileLe := ⟨fun a b => charListLe_total _ _⟩

instance : IsTrans DirFile fileLe := ⟨fun _ _ _ hab hbc => charListLe_trans _ _ _ hab hbc⟩

/-- Line 85: files = sorted(glob.glob(...)).  Python's sorted is a stable
ascending sort, which insertion sort implements. -/
def sortedFiles (fs : List DirFile) : List DirFile :=
  List.insertionSort fileLe fs

/-- Lines 89-107: the failed_items list accumulated over the (sorted) files.
A file whose read/parse raised (content = none) is skipped (lines 94-96);
an exception while walking a parsed report propagates and aborts the run. -/
def collectFailedItems : List DirFile → Except String (List FailedItem)
  | [] => .ok []
  | f :: rest =>
    match f.content with
    | none => collectFailedItems rest
    | some data =>
      match collectFileItems data with
      | .error e => .error e
      | .ok its =>
        match collectFailedItems rest with
        | .error e => .error e
        | .ok more => .ok (its ++ more)

/-- Lines 112-115: by_page.setdefault(p, {"page": p, "count": 0, "samples": []}),
count += 1, and the bounded sample append, for one failed item whose label
hashed to the key p.  The association list keeps dict insertion order; the
first matching entry is the unique one. -/
def addItem : List PageSummary → Scalar → FailedItem → List PageSummary
  | [], p, it =>
    [{ page := p, count := 1
       samples := if it.fileName.truthy then [it.fileName] else [] }]
  | ps :: rest, p, it =>
    if ps.page = p then
      { page := ps.page, count := ps.count + 1
        samples :=
          if ps.samples.length < 5 ∧ it.fileName.truthy then
            ps.samples ++ [it.fileName]
          else ps.samples } :: rest
    else ps :: addItem rest p it

/-- Lines 110-115: the by_page loop, threading the association list. -/
def buildByPageFrom (bp : List PageSummary) :
    List FailedItem → Except String (List PageSummary)
  | [] => .ok bp
  | it :: rest =>
    match it.label.asKey with
    | .error e => .error e
    | .ok p => buildByPageFrom (addItem bp p it) rest

/-- Lines 109-115 starting from the empty dict. -/
def buildByPage (items : List FailedItem) : Except String (List PageSummary) :=
  buildByPageFrom [] items

/-- The fixed output path of line 121. -/
def outPath : String := "out/diff-summary.json"

/-- One file write: target path and the summary value serialized into it. -/
abbrev FileWrite := String × Summary

/-- Lines 84-123, collect_diffs: sort the report files, early-return the empty
aggregate when there are none (line 86-87, without writing), otherwise collect
the failed items, group them by page, write the summary to the fixed output
path (lines 121-122) and return it.  The result carries the writes performed
alongside the returned summary. -/
def collect_diffs (reportDir : List DirFile) :
    Except String (List FileWrite × Summary) :=
  let files := sortedFiles reportDir
  if files.isEmpty then .ok ([], { pages := [], totalFailed := 0 })
  else
    match collectFailedItems files with
    | .error e => .error e
    | .ok items =>
      match buildByPage items with
      | .error e => .error e
      | .ok byPage =>
        let summary : Summary := { pages := byPage, totalFailed := items.length }
        .ok ([(outPath, summary)], summary)

/-- The summary value collect_diffs returns, writes disregarded. -/
def collect_diffs_value (reportDir : List DirFile) : Except String Summary :=
  (collect_diffs reportDir).map (fun r => r.2)

/-- Lines 236-238 of main: the collect_diffs call followed by main's own
unconditional dump of the summary to the same fixed path. -/
def collectAndDump (reportDir : List DirFile) :
    Except String (List FileWrite × Summary) :=
  match collect_diffs reportDir with
  | .error e => .error e
  | .ok (ws, s) => .ok (ws ++ [(outPath, s)], s)

/-- Content of the file at a path after a list of writes, given its prior
content (none = the file did not exist). -/
def fileAfter (prior : Option Summary) (path : String) :
    List FileWrite → Option Summary
  | [] => prior
  | w :: ws => fileAfter (if w.1 = path then some w.2 else prior) path ws

/-- Outcome of a run of main, restricted to what the claims observe: an early
sys.exit, or a completed control flow recording that the backstop run
(line 233) happened and the diff-collection result. -/
inductive MainOutcome where
  | exited (code : Nat)
  | completed (ranBackstop : Bool) (result : Except String (List FileWrite × Summary))

/-- Lines 224-238 of main: the task-file existence check (sys.exit(2) when
missing, lines 225-227) guards everything that follows; when the file exists,
backstop runs and the diff summary is collected and dumped. -/
def mainControl (taskFileExists : Bool) (reportDir : List DirFile) : MainOutcome :=
  if taskFileExists then .completed true (collectAndDump reportDir)
  else .exited 2

/-! Spec-side helper definitions used to state the claims. -/

/-- Append a key to the list of seen keys unless already present: one step of
first-occurrence order. -/
def insertIfNew (seen : List Scalar) (p : Scalar) : List Scalar :=
  if p ∈ seen then seen else seen ++ [p]

/-- The distinct keys of a list in order of first occurrence. -/
def firstOccurrenceOrder (ls : List Scalar) : List Scalar :=
  ls.foldl insertIfNew []

/-- Whether a failed item belongs to the page keyed by l. -/
def labelIs (it : FailedItem) (l : Scalar) : Bool :=
  match it.label.asKey with
  | .ok k => decide (k = l)
  | .error _ => false

/-- True total number of failed items for the page keyed by l. -/
def cntLabel (items : List FailedItem) (l : Scalar) : Nat :=
  (items.filter fun it => labelIs it l).length

/-- The label keys of the failed items, in item order (failing where hashing
the label would raise). -/
def labelKeys : List FailedItem → Except String (List Scalar)
  | [] => .ok []
  | it :: rest =>
    match it.label.asKey with
    | .error e => .error e
    | .ok p =>
      match labelKeys rest with
      | .error e => .error e
      | .ok ps => .ok (p :: ps)

/-- Count of the page summary keyed by l (0 when absent). -/
def pageCount : List PageSummary → Scalar → Nat
  | [], _ => 0
  | ps :: rest, l => if ps.page = l then ps.count else pageCount rest l

/-- Samples of the page summary keyed by l ([] when absent). -/
def pageSamples : List PageSummary → Scalar → List Json
  | [], _ => []
  | ps :: rest, l => if ps.page = l then ps.samples else pageSamples rest l

/-! Lemmas about one aggregation step. -/

theorem addItem_count_sum (bp : List PageSummary) (p : Scalar) (it : FailedItem) :
    ((addItem bp p it).map fun ps => ps.count).sum =
      ((bp.map fun ps => ps.count).sum) + 1 := by
  induction bp with
  | nil => simp [addItem]
  | cons ps rest ih =>
    by_cases h : ps.page = p
    · simp only [addItem, if_pos h, List.map_cons, List.sum_cons]
      omega
    · simp only [addItem, if_neg h, List.map_cons, List.sum_cons, ih]
      omega

theorem addItem_map_page (bp : List PageSummary) (p : Scalar) (it : FailedItem) :
    (addItem bp p it).map (fun ps => ps.page) =
      insertIfNew (bp.map fun ps => ps.page) p := by
  induction bp with
  | nil => simp [addItem, insertIfNew]
  | cons ps rest ih =>
    by_cases h : ps.page = p
    · subst h
      simp [addItem, insertIfNew]
    · by_cases hm : p ∈ rest.map fun ps => ps.page
      · simp [addItem, h, ih, insertIfNew, hm, Ne.symm h]
      · simp [addItem, h, ih, insertIfNew, hm, Ne.symm h]

theorem pageCount_addItem (bp : List PageSummary) (p : Scalar) (it : FailedItem)
    (l : Scalar) :
    pageCount (addItem bp p it) l =
      if l = p then pageCount bp l + 1 else pageCount bp l := by
  induction bp with
  | nil =>
    by_cases h : l = p
    · subst h; simp [addItem, pageCount]
    · have h2 : ¬ p = l := fun hh => h hh.symm
      simp [addItem, pageCount, h, h2]
  | cons ps rest ih =>
    by_cases hp : ps.page = p
    · by_cases hl : l = p
      · subst hl
        simp [addItem, pageCount, hp]
      · have hpl : ¬ ps.page = l := fun hh => hl (hh.symm.trans hp)
        have hpl2 : ¬ p = l := fun hh => hl hh.symm
        simp [addItem, pageCount, hp, hpl, hl, hpl2]
    · by_cases hpl : ps.page = l
      · have hl : ¬ l = p := fun hh => hp (hpl.trans hh)
        simp [addItem, pageCount, hp, hpl, hl]
      · simp [addItem, pageCount, hp, hpl, ih]

theorem pageSamples_addItem (bp : List PageSummary) (p : Scalar) (it : FailedItem)
    (l : Scalar) :
    pageSamples (addItem bp p it) l =
      if l = p ∧ (pageSamples bp l).length < 5 ∧ it.fileName.truthy then
        pageSamples bp l ++ [it.fileName]
      else pageSamples bp l := by
  induction bp with
  | nil =>
    by_cases h : l = p
    · subst h
      by_cases ht : it.fileName.truthy
      · simp [addItem, pageSamples, ht]
      · simp [addItem, pageSamples, ht]
    · have h2 : ¬ p = l := fun hh => h hh.symm
      simp [addItem, pageSamples, h, h2]
  | cons ps rest ih =>
    by_cases hp : ps.page = p
    · by_cases hl : l = p
      · subst hl
        have hpl : ps.page = l := hp
        by_cases hlen : (pageSamples (ps :: rest) l).length < 5 <;>
          by_cases ht : it.fileName.truthy <;>
            simp_all [addItem, pageSamples]
      · have hpl : ¬ ps.page = l := fun hh => hl (hh.symm.trans hp)
        have hpl2 : ¬ p = l := fun hh => hl hh.symm
        simp [addItem, pageSamples, hp, hpl, hl, hpl2]
    · by_cases hpl : ps.page = l
      · have hl : ¬ l = p := fun hh => hp (hpl.trans hh)
        simp [addItem, pageSamples, hp, hpl, hl]
      · simp [addItem, pageSamples, hp, hpl, ih]

/-! Lemmas about the whole by_page fold. -/

theorem buildByPageFrom_ok_sum :
    ∀ (items : List FailedItem) (bp res : List PageSummary),
      buildByPageFrom bp items = .ok res →
      ((res.map fun ps => ps.count).sum) =
        ((bp.map fun ps => ps.count).sum) + items.length := by
  intro items
  induction items with
  | nil =>
    intro bp res h
    simp only [buildByPageFrom] at h
    cases h
    simp
  | cons it rest ih =>
    intro bp res h
    simp only [buildByPageFrom] at h
    cases hk : it.label.asKey with
    | error e => rw [hk] at h; cases h
    | ok p =>
      rw [hk] at h
      have := ih (addItem bp p it) res h
      rw [this, addItem_count_sum]
      simp only [List.length_cons]
      omega

theorem buildByPageFrom_ok_pages :
    ∀ (items : List FailedItem) (bp res : List PageSummary),
      buildByPageFrom bp items = .ok res →
      ∃ ls, labelKeys items = .ok ls ∧
        res.map (fun ps => ps.page) =
          ls.foldl insertIfNew (bp.map fun ps => ps.page) := by
  intro items
  induction items with
  | nil =>
    intro bp res h
    simp only [buildByPageFrom] at h
    cases h
    exact ⟨[], rfl, rfl⟩
  | cons it rest ih =>
    intro bp res h
    simp only [buildByPageFrom] at h
    cases hk : it.label.asKey with
    | error e => rw [hk] at h; cases h
    | ok p =>
      rw [hk] at h
      obtain ⟨ls, hls, hmap⟩ := ih (addItem bp p it) res h
      refine ⟨p :: ls, ?_, ?_⟩
      · simp only [labelKeys, hk, hls]
      · rw [hmap, List.foldl_cons, addItem_map_page]

theorem buildByPageFrom_ok_pageCount :
    ∀ (items : List FailedItem) (bp res : List PageSummary) (l : Scalar),
      buildByPageFrom bp items = .ok res →
      pageCount res l = pageCount bp l + cntLabel items l := by
  intro items
  induction items with
  | nil =>
    intro bp res l h
    simp only [buildByPageFrom] at h
    cases h
    simp [cntLabel]
  | cons it rest ih =>
    intro bp res l h
    simp only [buildByPageFrom] at h
    cases hk : it.label.asKey with
    | error e => rw [hk] at h; cases h
    | ok p =>
      rw [hk] at h
      have hrest := ih (addItem bp p it) res l h
      have hstep := pageCount_addItem bp p it l
      have hcnt : cntLabel (it :: rest) l =
          (if labelIs it l then 1 else 0) + cntLabel rest l := by
        simp only [cntLabel, List.filter_cons]
        by_cases hb : labelIs it l
        · simp [hb, Nat.add_comm]
        · simp [hb]
      by_cases hl : l = p
      · subst hl
        have hlab2 : labelIs it l = true := by simp [labelIs, hk]
        rw [hrest, hstep, if_pos rfl, hcnt, hlab2]
        simp only [if_true]
        omega
      · have hl2 : ¬ p = l := fun hh => hl hh.symm
        have hlab2 : labelIs it l = false := by simp [labelIs, hk, hl2]
        rw [hrest, hstep, if_neg hl, hcnt, hlab2]
        simp

theorem buildByPageFrom_ok_samples_le :
    ∀ (items : List FailedItem) (bp res : List PageSummary) (l : Scalar),
      buildByPageFrom bp items = .ok res →
      (pageSamples bp l).length ≤ 5 →
      (pageSamples res l).length ≤ 5 := by
  intro items
  induction items with
  | nil =>
    intro bp res l h hle
    simp only [buildByPageFrom] at h
    cases h
    exact hle
  | cons it rest ih =>
    intro bp res l h hle
    simp only [buildByPageFrom] at h
    cases hk : it.label.asKey with
    | error e => rw [hk] at h; cases h
    | ok p =>
      rw [hk] at h
      refine ih (addItem bp p it) res l h ?_
      rw [pageSamples_addItem]
      by_cases hc : l = p ∧ (pageSamples bp l).length < 5 ∧ it.fileName.truthy
      · rw [if_pos hc]
        simp only [List.length_append, List.length_singleton]
        omega
      · rw [if_neg hc]
        exact hle

theorem buildByPageFrom_ok_samples_min :
    ∀ (items : List FailedItem) (bp res : List PageSummary) (l : Scalar),
      buildByPageFrom bp items = .ok res →
      (∀ it ∈ items, labelIs it l = true → it.fileName.truthy = true) →
      (pageSamples bp l).length = min (pageCount bp l) 5 →
      (pageSamples res l).length = min (pageCount res l) 5 := by
  intro items
  induction items with
  | nil =>
    intro bp res l h _ hinv
    simp only [buildByPageFrom] at h
    cases h
    exact hinv
  | cons it rest ih =>
    intro bp res l h hall hinv
    simp only [buildByPageFrom] at h
    cases hk : it.label.asKey with
    | error e => rw [hk] at h; cases h
    | ok p =>
      rw [hk] at h
      have hall2 : ∀ x ∈ rest, labelIs x l = true → x.fileName.truthy = true :=
        fun x hx => hall x (List.mem_cons_of_mem _ hx)
      refine ih (addItem bp p it) res l h hall2 ?_
      rw [pageSamples_addItem, pageCount_addItem]
      by_cases hl : l = p
      · have hlab : labelIs it l = true := by
          simp [labelIs, hk, hl.symm]
        have ht : it.fileName.truthy = true :=
          hall it (List.mem_cons_self _ _) hlab
        by_cases hlen : (pageSamples bp l).length < 5
        · rw [if_pos ⟨hl, hlen, ht⟩, if_pos hl]
          simp only [List.length_append, List.length_singleton]
          omega
        · rw [if_neg (fun hc => hlen hc.2.1), if_pos hl]
          omega
      · have hc : ¬ (l = p ∧ (pageSamples bp l).length < 5 ∧ it.fileName.truthy) :=
          fun hc => hl hc.1
        rw [if_neg hc, if_neg hl]
        exact hinv

theorem buildByPageFrom_ok_nodup :
    ∀ (items : List FailedItem) (bp res : List PageSummary),
      buildByPageFrom bp items = .ok res →
      (bp.map fun ps => ps.page).Nodup →
      (res.map fun ps => ps.page).Nodup := by
  intro items
  induction items with
  | nil =>
    intro bp res h hnd
    simp only [buildByPageFrom] at h
    cases h
    exact hnd
  | cons it rest ih =>
    intro bp res h hnd
    simp only [buildByPageFrom] at h
    cases hk : it.label.asKey with
    | error e => rw [hk] at h; cases h
    | ok p =>
      rw [hk] at h
      refine ih (addItem bp p it) res h ?_
      rw [addItem_map_page, insertIfNew]
      by_cases hm : p ∈ bp.map fun ps => ps.page
      · rw [if_pos hm]; exact hnd
      · rw [if_neg hm]
        simp [List.nodup_append, hnd, hm]

theorem pageCount_of_mem :
    ∀ (bp : List PageSummary) (ps : PageSummary),
      (bp.map fun x => x.page).Nodup → ps ∈ bp →
      pageCount bp ps.page = ps.count := by
  intro bp
  induction bp with
  | nil => intro ps _ hm; cases hm
  | cons hd rest ih =>
    intro ps hnd hm
    simp only [List.map_cons, List.nodup_cons] at hnd
    rcases List.mem_cons.mp hm with h | h
    · subst h
      simp [pageCount]
    · have hne : ¬ hd.page = ps.page := fun hh => by
        exact hnd.1 (hh ▸ List.mem_map_of_mem (fun x => x.page) h)
      simp only [pageCount, if_neg hne]
      exact ih ps hnd.2 h

theorem pageSamples_of_mem :
    ∀ (bp : List PageSummary) (ps : PageSummary),
      (bp.map fun x => x.page).Nodup → ps ∈ bp →
      pageSamples bp ps.page = ps.samples := by
  intro bp
  induction bp with
  | nil => intro ps _ hm; cases hm
  | cons hd rest ih =>
    intro ps hnd hm
    simp only [List.map_cons, List.nodup_cons] at hnd
    rcases List.mem_cons.mp hm with h | h
    · subst h
      simp [pageSamples]
    · have hne : ¬ hd.page = ps.page := fun hh => by
        exact hnd.1 (hh ▸ List.mem_map_of_mem (fun x => x.page) h)
      simp only [pageSamples, if_neg hne]
      exact ih ps hnd.2 h

/-! Lemmas about the sorted-file order and skipped files. -/

theorem orderedInsert_filter (p : DirFile → Bool) (a : DirFile) :
    ∀ m : List DirFile, List.Sorted fileLe m →
      (List.orderedInsert fileLe a m).filter p =
        if p a then List.orderedInsert fileLe a (m.filter p) else m.filter p := by
  intro m
  induction m with
  | nil =>
    intro _
    by_cases hp : p a <;> simp [List.orderedInsert, hp]
  | cons b bs ih =>
    intro hs
    have hb : ∀ c ∈ bs, fileLe b c := List.rel_of_sorted_cons hs
    have hs2 : List.Sorted fileLe bs := hs.of_cons
    by_cases hab : fileLe a b
    · have hfront : ∀ ll : List DirFile, (∀ c ∈ ll, c ∈ b :: bs) →
          List.orderedInsert fileLe a ll = a :: ll := by
        intro ll hll
        cases ll with
        | nil => rfl
        | cons c cs =>
          have hac : fileLe a c := by
            rcases List.mem_cons.mp (hll c (List.mem_cons_self _ _)) with h | h
            · exact h ▸ hab
            · exact charListLe_trans _ _ _ hab (hb c h)
          simp [List.orderedInsert, hac]
      rw [List.orderedInsert, if_pos hab]
      by_cases hp : p a
      · rw [if_pos hp, hfront ((b :: bs).filter p) (fun c hc => List.mem_of_mem_filter hc)]
        simp [List.filter_cons, hp]
      · rw [if_neg hp]
        simp [List.filter_cons, hp]
    · rw [List.orderedInsert, if_neg hab]
      by_cases hp : p a
      · by_cases hpb : p b
        · simp only [List.filter_cons, hpb, if_pos, ih hs2, hp, if_true]
          rw [List.orderedInsert, if_neg hab]
        · simp only [List.filter_cons, hpb, ih hs2, hp, if_true]
          simp
      · by_cases hpb : p b
        · simp only [List.filter_cons, hpb, ih hs2, hp, if_true]
          simp
        · simp only [List.filter_cons, hpb, ih hs2, hp]
          simp

theorem sortedFiles_filter (p : DirFile → Bool) (fs : List DirFile) :
    sortedFiles (fs.filter p) = (sortedFiles fs).filter p := by
  induction fs with
  | nil => rfl
  | cons f rest ih =>
    have hsorted : List.Sorted fileLe (sortedFiles rest) :=
      List.sorted_insertionSort fileLe rest
    have hins : sortedFiles (f :: rest) =
        List.orderedInsert fileLe f (sortedFiles rest) := rfl
    by_cases hp : p f
    · have hl : sortedFiles ((f :: rest).filter p) =
          List.orderedInsert fileLe f (sortedFiles (rest.filter p)) := by
        simp [sortedFiles, List.filter_cons, hp, List.insertionSort]
      rw [hl, ih, hins, orderedInsert_filter p f (sortedFiles rest) hsorted, if_pos hp]
    · have hl : sortedFiles ((f :: rest).filter p) = sortedFiles (rest.filter p) := by
        simp [sortedFiles, List.filter_cons, hp]
      rw [hl, ih, hins, orderedInsert_filter p f (sortedFiles rest) hsorted, if_neg hp]

theorem collectFailedItems_filter :
    ∀ l : List DirFile,
      collectFailedItems l =
        collectFailedItems (l.filter fun f => f.content.isSome) := by
  intro l
  induction l with
  | nil => rfl
  | cons f rest ih =>
    cases hc : f.content with
    | none =>
      simp only [collectFailedItems, hc, List.filter_cons]
      simp [hc, ih]
    | some data =>
      simp only [collectFailedItems, hc, List.filter_cons]
      rw [ih]

theorem sortedFiles_eq_nil_iff (fs : List DirFile) :
    sortedFiles fs = [] ↔ fs = [] := by
  constructor
  · intro h
    have hp := List.perm_insertionSort fileLe fs
    rw [show List.insertionSort fileLe fs = sortedFiles fs from rfl, h] at hp
    exact (hp.symm).eq_nil
  · intro h
    subst h
    rfl

/-! Reports with no failing test entries (claim C4). -/

/-- A test entry that is a dict whose status is not the string "fail". -/
def isNonFailTest : Json → Bool
  | .obj tkvs => !((dictGet tkvs "status").isStr "fail")
  | _ => false

/-- A parsed report document that is shaped as the external interface
describes (tests, when truthy, is an array of dicts) and contains no
failing test entry. -/
def zeroFailWf : Json → Bool
  | .obj dkvs =>
    match dictGetD dkvs "tests" (.arr []) with
    | .arr ts => ts.all isNonFailTest
    | j => !j.truthy
  | _ => false

theorem processTest_of_nonFail {t : Json} (h : isNonFailTest t = true) :
    processTest t = .ok none := by
  cases t with
  | obj tkvs =>
    simp only [isNonFailTest, Bool.not_eq_eq_eq_not, Bool.not_true] at h
    simp [processTest, h]
  | null => cases h
  | bool b => cases h
  | num n => cases h
  | str s => cases h
  | arr xs => cases h

theorem collectTestItems_of_nonFail :
    ∀ ts : List Json, (∀ t ∈ ts, isNonFailTest t = true) →
      collectTestItems ts = .ok [] := by
  intro ts
  induction ts with
  | nil => intro _; rfl
  | cons t rest ih =>
    intro hall
    have h1 := processTest_of_nonFail (hall t (List.mem_cons_self _ _))
    have h2 := ih fun x hx => hall x (List.mem_cons_of_mem _ hx)
    simp [collectTestItems, h1, h2]

theorem collectFileItems_of_zeroFail {data : Json} (h : zeroFailWf data = true) :
    collectFileItems data = .ok [] := by
  cases data with
  | obj dkvs =>
    simp only [zeroFailWf] at h
    cases hraw : dictGetD dkvs "tests" (.arr []) with
    | arr ts =>
      rw [hraw] at h
      have hall : ∀ t ∈ ts, isNonFailTest t = true := by
        intro t ht
        exact List.all_eq_true.mp h t ht
      have hft : fileTests (.obj dkvs) = .ok ts := by
        simp only [fileTests, hraw]
        by_cases hts : ts.isEmpty
        · have : ts = [] := List.isEmpty_iff.mp hts
          subst this
          rfl
        · simp [Json.truthy, hts, Json.iterate]
      simp [collectFileItems, hft, collectTestItems_of_nonFail ts hall]
    | null =>
      rw [hraw] at h
      simp only [fileTests, collectFileItems, hraw, Json.truthy]
      rfl
    | bool b =>
      rw [hraw] at h
      simp only [Json.truthy, Bool.not_eq_eq_eq_not, Bool.not_true] at h
      simp [collectFileItems, fileTests, hraw, Json.truthy, h]
      rfl
    | num n =>
      rw [hraw] at h
      simp only [Json.truthy, Bool.not_eq_eq_eq_not, Bool.not_true] at h
      simp [collectFileItems, fileTests, hraw, Json.truthy, h]
      rfl
    | str s =>
      rw [hraw] at h
      simp only [Json.truthy, Bool.not_eq_eq_eq_not, Bool.not_true] at h
      simp [collectFileItems, fileTests, hraw, Json.truthy, h]
      rfl
    | obj kvs =>
      rw [hraw] at h
      simp only [Json.truthy, Bool.not_eq_eq_eq_not, Bool.not_true] at h
      simp [collectFileItems, fileTests, hraw, Json.truthy, h]
      rfl
  | null => cases h
  | bool b => cases h
  | num n => cases h
  | str s => cases h
  | arr xs => cases h

theorem collectFailedItems_of_empty :
    ∀ l : List DirFile,
      (∀ f ∈ l, ∀ d, f.content = some d → collectFileItems d = .ok []) →
      collectFailedItems l = .ok [] := by
  intro l
  induction l with
  | nil => intro _; rfl
  | cons f rest ih =>
    intro hall
    have hrest := ih fun x hx => hall x (List.mem_cons_of_mem _ hx)
    cases hc : f.content with
    | none => simp [collectFailedItems, hc, hrest]
    | some data =>
      have hfile := hall f (List.mem_cons_self _ _) data hc
      simp [collectFailedItems, hc, hfile, hrest]

/-! The claim theorems. -/

/-- C1: for every input set of parseable report files, the aggregate produced
by collect_diffs satisfies totalFailed = sum of the count fields across all
page summaries (equivalently, totalFailed is the number of failed items
collected). -/
theorem collect_diffs_totalFailed_eq_sum_counts {fs : List DirFile}
    {r : List FileWrite × Summary} (h : collect_diffs fs = .ok r) :
    r.2.totalFailed = ((r.2.pages.map fun ps => ps.count).sum) := by
  cases hsf : sortedFiles fs with
  | nil =>
    simp only [collect_diffs, hsf, List.isEmpty_nil, if_true] at h
    injection h with h2
    subst h2
    rfl
  | cons f rest =>
    cases hfi : collectFailedItems (f :: rest) with
    | error e =>
      simp only [collect_diffs, hsf, List.isEmpty_cons, Bool.false_eq_true,
        if_false, hfi] at h
      cases h
    | ok items =>
      simp only [collect_diffs, hsf, List.isEmpty_cons, Bool.false_eq_true,
        if_false, hfi] at h
      cases hbp : buildByPage items with
      | error e => rw [hbp] at h; cases h
      | ok byPage =>
        rw [hbp] at h
        injection h with h2
        subst h2
        have hsum := buildByPageFrom_ok_sum items [] byPage hbp
        simp only [List.map_nil, List.sum_nil, Nat.zero_add] at hsum
        exact hsum.symm

/-- Concrete directory for the C1 witness: one report with two failing tests
labelled home. -/
def dirC1 : List DirFile :=
  [{ name := "a.json"
     content := some (.obj [("tests", .arr
       [.obj [("status", .str "fail"),
              ("pair", .obj [("label", .str "home"),
                             ("fileName", .str "f1")])],
        .obj [("status", .str "fail"),
              ("pair", .obj [("label", .str "home"),
                             ("fileName", .str "f2")])]])]) }]

/-- The result collect_diffs computes on dirC1. -/
def resC1 : List FileWrite × Summary :=
  ([(outPath,
     { pages := [{ page := .str "home", count := 2
                   samples := [.str "f1", .str "f2"] }]
       totalFailed := 2 })],
   { pages := [{ page := .str "home", count := 2
                 samples := [.str "f1", .str "f2"] }]
     totalFailed := 2 })

/-- Witness for C1 on the concrete directory dirC1. -/
theorem collect_diffs_totalFailed_eq_sum_counts_witness :
    collect_diffs dirC1 = .ok resC1 ∧
      resC1.2.totalFailed = ((resC1.2.pages.map fun ps => ps.count).sum) :=
  ⟨by rfl,
   @collect_diffs_totalFailed_eq_sum_counts dirC1 resC1 (by rfl)⟩

/-- C2: every page summary in the aggregate has at most 5 samples while its
count is the true number of failed items for its label; and when count is
below 5 and every failed item of that label carries a truthy file name, the
samples list has exactly count entries. -/
theorem collect_diffs_samples_bounded_count_exact {fs : List DirFile}
    {r : List FileWrite × Summary} {items : List FailedItem} {ps : PageSummary}
    (h : collect_diffs fs = .ok r)
    (hit : collectFailedItems (sortedFiles fs) = .ok items)
    (hps : ps ∈ r.2.pages) :
    ps.samples.length ≤ 5 ∧
    ps.count = cntLabel items ps.page ∧
    (ps.count < 5 →
      (∀ it ∈ items, labelIs it ps.page = true → it.fileName.truthy = true) →
      ps.samples.length = ps.count) := by
  cases hsf : sortedFiles fs with
  | nil =>
    simp only [collect_diffs, hsf, List.isEmpty_nil, if_true] at h
    injection h with h2
    subst h2
    cases hps
  | cons f rest =>
    rw [hsf] at hit
    simp only [collect_diffs, hsf, List.isEmpty_cons, Bool.false_eq_true,
      if_false, hit] at h
    cases hbp : buildByPage items with
    | error e => rw [hbp] at h; cases h
    | ok byPage =>
      rw [hbp] at h
      injection h with h2
      subst h2
      have hnd : (byPage.map fun x => x.page).Nodup :=
        buildByPageFrom_ok_nodup items [] byPage hbp (by simp)
      have hc := pageCount_of_mem byPage ps hnd hps
      have hsam := pageSamples_of_mem byPage ps hnd hps
      have hcnt := buildByPageFrom_ok_pageCount items [] byPage ps.page hbp
      simp only [pageCount, Nat.zero_add] at hcnt
      have hle := buildByPageFrom_ok_samples_le items [] byPage ps.page hbp
        (by simp [pageSamples])
      refine ⟨by rw [← hsam]; exact hle, by rw [← hc, hcnt], ?_⟩
      intro hlt hall
      have hmin := buildByPageFrom_ok_samples_min items [] byPage ps.page hbp
        hall (by simp [pageSamples, pageCount])
      rw [← hsam, hmin, hc]
      omega

/-- Concrete directory for the C2 witness: one report with one failing
pricing test. -/
def dirC2 : List DirFile :=
  [{ name := "a.json"
     content := some (.obj [("tests", .arr
       [.obj [("status", .str "fail"),
              ("pair", .obj [("label", .str "pricing"),
                             ("fileName", .str "p1")])]])]) }]

/-- The single failed item collected from dirC2. -/
def itemC2 : FailedItem :=
  { label := .str "pricing", url := .str "", fileName := .str "p1"
    mismatch := .null, selectors := .null }

/-- The pricing page summary computed from dirC2. -/
def psC2 : PageSummary :=
  { page := .str "pricing", count := 1, samples := [.str "p1"] }

/-- The result collect_diffs computes on dirC2. -/
def resC2 : List FileWrite × Summary :=
  ([(outPath, { pages := [psC2], totalFailed := 1 })],
   { pages := [psC2], totalFailed := 1 })

/-- Witness for C2: the pricing page summary of dirC2 has one sample,
count 1, and the conditional equality holds. -/
theorem collect_diffs_samples_bounded_count_exact_witness :
    psC2.samples.length ≤ 5 ∧
    psC2.count = cntLabel [itemC2] psC2.page ∧
    (psC2.count < 5 →
      (∀ it ∈ [itemC2], labelIs it psC2.page = true →
        it.fileName.truthy = true) →
      psC2.samples.length = psC2.count) :=
  @collect_diffs_samples_bounded_count_exact dirC2 resC2 [itemC2] psC2
    (by rfl) (by rfl) (List.mem_singleton.mpr rfl)

/-- C3: the page summaries appear in first-occurrence order of their label
keys, where occurrence order processes the report files in sorted file-name
order (an actual lexicographically sorted permutation of the input) and test
entries in file order. -/
theorem collect_diffs_pages_first_occurrence_order {fs : List DirFile}
    {r : List FileWrite × Summary} {items : List FailedItem}
    (h : collect_diffs fs = .ok r)
    (hit : collectFailedItems (sortedFiles fs) = .ok items) :
    List.Sorted fileLe (sortedFiles fs) ∧
    (sortedFiles fs).Perm fs ∧
    ∃ ls, labelKeys items = .ok ls ∧
      r.2.pages.map (fun ps => ps.page) = firstOccurrenceOrder ls := by
  refine ⟨List.sorted_insertionSort fileLe fs, List.perm_insertionSort fileLe fs, ?_⟩
  cases hsf : sortedFiles fs with
  | nil =>
    rw [hsf] at hit
    have hitems : items = [] := by
      simp only [collectFailedItems] at hit
      injection hit with h2
      exact h2.symm
    subst hitems
    simp only [collect_diffs, hsf, List.isEmpty_nil, if_true] at h
    injection h with h2
    subst h2
    exact ⟨[], rfl, rfl⟩
  | cons f rest =>
    rw [hsf] at hit
    simp only [collect_diffs, hsf, List.isEmpty_cons, Bool.false_eq_true,
      if_false, hit] at h
    cases hbp : buildByPage items with
    | error e => rw [hbp] at h; cases h
    | ok byPage =>
      rw [hbp] at h
      injection h with h2
      subst h2
      obtain ⟨ls, hls, hmap⟩ := buildByPageFrom_ok_pages items [] byPage hbp
      exact ⟨ls, hls, by simpa [firstOccurrenceOrder] using hmap⟩

/-- Concrete directory for the C3 witness: two files with one failing test
each, listed unsorted so that sorting matters (b.json sorts before c.json). -/
def dirC3 : List DirFile :=
  [{ name := "c.json"
     content := some (.obj [("tests", .arr
       [.obj [("status", .str "fail"),
              ("pair", .obj [("label", .str "pricing")])]])]) },
   { name := "b.json"
     content := some (.obj [("tests", .arr
       [.obj [("status", .str "fail"),
              ("pair", .obj [("label", .str "home")])]])]) }]

/-- The failed items collected from dirC3, home (from b.json) first. -/
def itemsC3 : List FailedItem :=
  [{ label := .str "home", url := .str "", fileName := .null
     mismatch := .null, selectors := .null },
   { label := .str "pricing", url := .str "", fileName := .null
     mismatch := .null, selectors := .null }]

/-- The result collect_diffs computes on dirC3. -/
def resC3 : List FileWrite × Summary :=
  ([(outPath,
     { pages := [{ page := .str "home", count := 1, samples := [] },
                 { page := .str "pricing", count := 1, samples := [] }]
       totalFailed := 2 })],
   { pages := [{ page := .str "home", count := 1, samples := [] },
               { page := .str "pricing", count := 1, samples := [] }]
     totalFailed := 2 })

/-- Witness for C3 on the concrete directory dirC3. -/
theorem collect_diffs_pages_first_occurrence_order_witness :
    List.Sorted fileLe (sortedFiles dirC3) ∧
    (sortedFiles dirC3).Perm dirC3 ∧
    ∃ ls, labelKeys itemsC3 = .ok ls ∧
      resC3.2.pages.map (fun ps => ps.page) = firstOccurrenceOrder ls :=
  @collect_diffs_pages_first_occurrence_order dirC3 resC3 itemsC3
    (by rfl) (by rfl)

/-- C4: for every input set of report files (including the empty set) that
are well shaped with zero failing test entries, collect_diffs returns the
aggregate with empty pages and totalFailed 0, without failing. -/
theorem collect_diffs_zero_fail_empty_aggregate {fs : List DirFile}
    (hwf : ∀ f ∈ fs, ∀ d, f.content = some d → zeroFailWf d = true) :
    collect_diffs_value fs = .ok { pages := [], totalFailed := 0 } := by
  cases hsf : sortedFiles fs with
  | nil =>
    simp only [collect_diffs_value, collect_diffs, hsf, List.isEmpty_nil,
      if_true]
    rfl
  | cons f rest =>
    have hmem : ∀ g ∈ sortedFiles fs, g ∈ fs := by
      intro g hg
      exact (List.perm_insertionSort fileLe fs).mem_iff.mp hg
    have hzero : collectFailedItems (f :: rest) = .ok [] := by
      rw [← hsf]
      refine collectFailedItems_of_empty (sortedFiles fs) ?_
      intro g hg d hd
      exact collectFileItems_of_zeroFail (hwf g (hmem g hg) d hd)
    simp only [collect_diffs_value, collect_diffs, hsf, List.isEmpty_cons,
      Bool.false_eq_true, if_false, hzero]
    rfl

/-- Witness for C4: one report whose only test entry passes. -/
theorem collect_diffs_zero_fail_empty_aggregate_witness :
    collect_diffs_value
        [{ name := "a.json"
           content := some (.obj [("tests", .arr
             [.obj [("status", .str "pass"),
                    ("pair", .obj [("label", .str "home")])]])]) }] =
      .ok { pages := [], totalFailed := 0 } :=
  collect_diffs_zero_fail_empty_aggregate (by
    intro f hf d hd
    simp only [List.mem_singleton] at hf
    subst hf
    injection hd with hd2
    subst hd2
    rfl)

/-- C5: a report file whose read or parse raised is skipped: the aggregate
value equals the one computed from the parseable files alone, for every
input set (so a corrupt report never aborts aggregation of other files). -/
theorem collect_diffs_skips_unparseable (fs : List DirFile) :
    collect_diffs_value fs =
      collect_diffs_value (fs.filter fun f => f.content.isSome) := by
  have hitems : collectFailedItems (sortedFiles fs) =
      collectFailedItems (sortedFiles (fs.filter fun f => f.content.isSome)) := by
    rw [collectFailedItems_filter (sortedFiles fs),
      ← sortedFiles_filter (fun f => f.content.isSome) fs]
  cases hsf : sortedFiles fs with
  | nil =>
    have hfs : fs = [] := (sortedFiles_eq_nil_iff fs).mp hsf
    subst hfs
    rfl
  | cons f rest =>
    cases hsf2 : sortedFiles (fs.filter fun f => f.content.isSome) with
    | nil =>
      have hz : collectFailedItems (f :: rest) = .ok [] := by
        rw [← hsf, hitems, hsf2]
        rfl
      simp only [collect_diffs_value, collect_diffs, hsf, hsf2,
        List.isEmpty_cons, Bool.false_eq_true, if_false, List.isEmpty_nil,
        if_true, hz]
      rfl
    | cons g rest2 =>
      rw [hsf, hsf2] at hitems
      simp only [collect_diffs_value, collect_diffs, hsf, hsf2,
        List.isEmpty_cons, Bool.false_eq_true, if_false, hitems]

/-- The failed item produced for a failing test entry without a pair object
(lines 100-107 with pair = {}). -/
def unknownItem : FailedItem :=
  { label := .str "unknown", url := .str "", fileName := .null
    mismatch := .null, selectors := .null }

/-- C6: a failing test entry without a pair object yields the item with label
"unknown", url "" and no file name; adding it to any by_page state increments
the count of the unknown page by 1 and leaves its samples unchanged. -/
theorem processTest_missing_pair_unknown (tkvs : List (String × Json))
    (bp : List PageSummary)
    (hstatus : (dictGet tkvs "status").isStr "fail" = true)
    (hpair : tkvs.lookup "pair" = none) :
    processTest (.obj tkvs) = .ok (some unknownItem) ∧
    unknownItem.label.asKey = .ok (.str "unknown") ∧
    pageCount (addItem bp (.str "unknown") unknownItem) (.str "unknown") =
      pageCount bp (.str "unknown") + 1 ∧
    pageSamples (addItem bp (.str "unknown") unknownItem) (.str "unknown") =
      pageSamples bp (.str "unknown") := by
  refine ⟨?_, rfl, ?_, ?_⟩
  · have hgd : dictGetD tkvs "pair" (.obj []) = .obj [] := by
      simp [dictGetD, hpair]
    simp only [processTest, hstatus, if_true, hgd]
    rfl
  · rw [pageCount_addItem]
    simp
  · rw [pageSamples_addItem]
    simp [unknownItem, Json.truthy]

/-- Witness for C6: the minimal failing test entry without a pair, added to
the empty by_page state. -/
theorem processTest_missing_pair_unknown_witness :
    processTest (.obj [("status", .str "fail")]) = .ok (some unknownItem) ∧
    unknownItem.label.asKey = .ok (.str "unknown") ∧
    pageCount (addItem [] (.str "unknown") unknownItem) (.str "unknown") =
      pageCount [] (.str "unknown") + 1 ∧
    pageSamples (addItem [] (.str "unknown") unknownItem) (.str "unknown") =
      pageSamples [] (.str "unknown") :=
  processTest_missing_pair_unknown [("status", .str "fail")] [] (by rfl) rfl

theorem fileAfter_append (path : String) :
    ∀ (ws1 ws2 : List FileWrite) (prior : Option Summary),
      fileAfter prior path (ws1 ++ ws2) =
        fileAfter (fileAfter prior path ws1) path ws2 := by
  intro ws1
  induction ws1 with
  | nil => intro ws2 prior; rfl
  | cons w ws ih =>
    intro ws2 prior
    simp only [List.cons_append, fileAfter]
    exact ih ws2 _

/-- C7: every completed run of the collect-and-dump step leaves the computed
aggregate as the content of the fixed output path, whatever that file held
before (including runs where no report files were found, where collect_diffs
itself skips its write and main's unconditional dump still persists it). -/
theorem collectAndDump_persists_summary {fs : List DirFile}
    {ws : List FileWrite} {s : Summary} (prior : Option Summary)
    (h : collectAndDump fs = .ok (ws, s)) :
    fileAfter prior outPath ws = some s := by
  unfold collectAndDump at h
  cases hc : collect_diffs fs with
  | error e => rw [hc] at h; cases h
  | ok r =>
    obtain ⟨ws0, s0⟩ := r
    simp only [hc] at h
    injection h with h1
    injection h1 with hws hs
    subst hws
    subst hs
    rw [fileAfter_append]
    simp [fileAfter]

/-- Witness for C7: the empty report directory, with a stale summary already
sitting at the output path; after the run the file holds the empty
aggregate. -/
theorem collectAndDump_persists_summary_witness :
    collectAndDump [] =
      .ok ([(outPath, { pages := [], totalFailed := 0 })],
           { pages := [], totalFailed := 0 }) ∧
    fileAfter (some { pages := [], totalFailed := 99 }) outPath
        [(outPath, { pages := [], totalFailed := 0 })] =
      some { pages := [], totalFailed := 0 } :=
  ⟨by rfl,
   @collectAndDump_persists_summary []
     [(outPath, { pages := [], totalFailed := 0 })]
     { pages := [], totalFailed := 0 }
     (some { pages := [], totalFailed := 99 }) (by rfl)⟩

/-- C8: with the task file missing, main exits with the distinct status 2,
recording neither a backstop run nor any aggregation; with the task file
present the check lets the run complete through backstop and aggregation. -/
theorem mainControl_missing_task_exits (fs : List DirFile) :
    mainControl false fs = .exited 2 ∧
    (2 : Nat) ≠ 0 ∧
    mainControl true fs = .completed true (collectAndDump fs) :=
  ⟨rfl, by decide, rfl⟩

/-- C9: a parsed report whose tests field is absent or null contributes no
failed items and raises no error. -/
theorem collectFileItems_tests_absent_or_null (dkvs : List (String × Json))
    (h : dkvs.lookup "tests" = none ∨ dkvs.lookup "tests" = some .null) :
    collectFileItems (.obj dkvs) = .ok [] := by
  have hft : fileTests (.obj dkvs) = .ok [] := by
    rcases h with h | h <;>
      simp [fileTests, dictGetD, h, Json.truthy, Json.iterate]
  simp [collectFileItems, hft]
  rfl

/-- Witness for C9: a report that is an empty object (tests absent). -/
theorem collectFileItems_tests_absent_or_null_witness :
    collectFileItems (.obj []) = .ok [] :=
  collectFileItems_tests_absent_or_null [] (Or.inl rfl)

/-- C10: for every failing test entry whose pair parses, the two defaults are
independent: a present-but-falsy pair.label (empty string or null) — or an
absent one — makes the item group under the key "unknown", whatever the url
is; and a present-but-falsy pair.url yields the empty string, whatever the
label is. -/
theorem processTest_falsy_label_url (tkvs pkvs : List (String × Json))
    (item : FailedItem)
    (hpair : tkvs.lookup "pair" = some (.obj pkvs))
    (hok : processTest (.obj tkvs) = .ok (some item)) :
    ((pkvs.lookup "label" = some (.str "") ∨
        pkvs.lookup "label" = some .null ∨
        pkvs.lookup "label" = none) →
      item.label = .str "unknown" ∧ item.label.asKey = .ok (.str "unknown")) ∧
    ((pkvs.lookup "url" = some (.str "") ∨ pkvs.lookup "url" = some .null) →
      item.url = .str "") := by
  simp only [processTest] at hok
  by_cases hst : (dictGet tkvs "status").isStr "fail" = true
  · simp only [hst, if_true] at hok
    have hgd : dictGetD tkvs "pair" (.obj []) = .obj pkvs := by
      simp [dictGetD, hpair]
    simp only [hgd] at hok
    cases hdiff : (if (dictGet pkvs "diff").truthy then dictGet pkvs "diff"
        else Json.obj []) with
    | obj dkvs =>
      simp only [hdiff] at hok
      injection hok with h1
      injection h1 with h2
      subst h2
      refine ⟨?_, ?_⟩
      · intro hlabel
        have hlab : (dictGet pkvs "label").truthy = false := by
          rcases hlabel with h | h | h <;> simp [dictGet, h, Json.truthy]
        exact ⟨by simp [hlab], by simp [hlab, Json.asKey]⟩
      · intro hurl
        have hu : (dictGet pkvs "url").truthy = false := by
          rcases hurl with h | h <;> simp [dictGet, h, Json.truthy]
        simp [hu]
    | null => simp only [hdiff] at hok; cases hok
    | bool b => simp only [hdiff] at hok; cases hok
    | num n => simp only [hdiff] at hok; cases hok
    | str s => simp only [hdiff] at hok; cases hok
    | arr xs => simp only [hdiff] at hok; cases hok
  · simp only [hst, if_false] at hok
    cases hok

/-- Witness for C10, exercising each half on its own: a failing entry with
label the empty string but a truthy url is grouped under "unknown", and a
failing entry with a truthy label but null url gets the empty-string url. -/
theorem processTest_falsy_label_url_witness :
    (({ label := .str "unknown", url := .str "http://x", fileName := .str "x"
        mismatch := .null, selectors := .null } : FailedItem).label =
          .str "unknown" ∧
     ({ label := .str "unknown", url := .str "http://x", fileName := .str "x"
        mismatch := .null, selectors := .null } : FailedItem).label.asKey =
          .ok (.str "unknown")) ∧
    ({ label := .str "home", url := .str "", fileName := .null
       mismatch := .null, selectors := .null } : FailedItem).url = .str "" :=
  ⟨(processTest_falsy_label_url
      [("status", .str "fail"),
       ("pair", .obj [("label", .str ""), ("url", .str "http://x"),
                      ("fileName", .str "x")])]
      [("label", .str ""), ("url", .str "http://x"), ("fileName", .str "x")]
      { label := .str "unknown", url := .str "http://x", fileName := .str "x"
        mismatch := .null, selectors := .null }
      rfl (by rfl)).1 (Or.inl rfl),
   (processTest_falsy_label_url
      [("status", .str "fail"),
       ("pair", .obj [("label", .str "home"), ("url", .null)])]
      [("label", .str "home"), ("url", .null)]
      { label := .str "home", url := .str "", fileName := .null
        mismatch := .null, selectors := .null }
      rfl (by rfl)).2 (Or.inr rfl)⟩

